import Mathlib

open scoped BigOperators

/- Shallow embedding of `src/temp_to_rgb.py` over the real numbers.
   Python floats are modelled as real numbers, and a Python runtime
   failure (an IndexError from list indexing) is modelled by `Option`:
   `none` stands for the call raising instead of returning a value. -/

/-- Planck spectral radiance, from `planck` in src/temp_to_rgb.py.
`math.expm1 x` is exactly `Real.exp x - 1` over the reals, and
`pow(wavelength, 5)` is the monoid power with natural exponent 5. -/
noncomputable def planck (wavelength temperature : ℝ) : ℝ :=
  let h : ℝ := 6.62607015e-34
  let c : ℝ := 2.99792458e8
  let k_b : ℝ := 1.380649e-23
  let numerator := 2.0 * h * c * c
  let denominator :=
    wavelength ^ (5 : ℕ) * (Real.exp (h * c / (wavelength * k_b * temperature)) - 1)
  numerator / denominator

/-- Empirical voltage-to-filament-temperature model, from `voltage_to_temp`
in src/temp_to_rgb.py.  Python float `**` with a real exponent is `Real.rpow`. -/
noncomputable def voltage_to_temp (voltage : ℝ) : ℝ :=
  let voltage := if voltage < 0 then voltage * (-1) else voltage
  let stef_boltz : ℝ := 5.670374419e-8
  let emissivity : ℝ := 0.28
  let filament_length : ℝ := 0.02314
  let filament_radius : ℝ := 0.00001091
  let b_1 := (2.0 * stef_boltz * emissivity * (2.96e8 : ℝ) ^ (4 : ℕ)) ^ (-0.232 : ℝ)
  let b_1 := b_1 / Real.pi
  let b_2 := (2.0 * Real.pi * stef_boltz * emissivity * b_1) ^ (-0.25 : ℝ)
  let B_2 := b_2 * filament_length ^ (-0.384 : ℝ) * filament_radius ^ (0.192 : ℝ)
  B_2 * voltage ^ (0.384 : ℝ)

/-- Composite Simpson rule, from `simpson` in src/temp_to_rgb.py.
Python integers are modelled by `ℤ`: for `len(values) = 0` the Python
expression `(num_points - 1) % 2` is `(-1) % 2 = 1 ≠ 0` (Python and
`Int.emod` agree for the positive modulus 2), and `int(num_points / 2)`
truncates toward zero, which is `Int.tdiv`.  The two endpoint accesses
`values[0]` and `values[2 * num_panels]` can raise IndexError and are
modelled with `·[·]?`; whenever `values[2 * num_panels]` is in range every
index touched by the two loops (`2*i - 1 ≤ 2*num_panels - 1` and
`2*i ≤ 2*num_panels - 2`) is also in range, so the loop reads are written
with `getD` without loss of fidelity. -/
noncomputable def simpson (values : List ℝ) (subint_size : ℝ) : Option ℝ :=
  let num_points0 : ℤ := (values.length : ℤ)
  let num_points : ℤ := if (num_points0 - 1) % 2 ≠ 0 then num_points0 - 1 else num_points0
  let num_panels : ℕ := (num_points.tdiv 2).toNat
  match values[0]?, values[2 * num_panels]? with
  | some v0, some vN =>
      let odd_sum := ∑ i in Finset.Icc 1 num_panels, values.getD (2 * i - 1) 0
      let even_sum := ∑ i in Finset.Ico 1 num_panels, values.getD (2 * i) 0
      some ((v0 + vN + 4.0 * odd_sum + 2.0 * even_sum) * (subint_size / 3.0))
  | _, _ => none

/-- One row of the CMF table, `[wavelength (nm), CIE X, CIE Y, CIE Z]`
in src/temp_to_rgb.py. -/
structure CMFRow where
  wavelength_nm : ℝ
  xbar : ℝ
  ybar : ℝ
  zbar : ℝ

/-- From `get_xyz_from_temp` in src/temp_to_rgb.py.  The accesses
`data[1][0]` and `data[0][0]` raise IndexError on tables shorter than 2
rows, hence the `Option`; `xyz *= 683` multiplies each component by 683. -/
noncomputable def get_xyz_from_temp (temperature : ℝ) (data : List CMFRow) :
    Option (ℝ × ℝ × ℝ) :=
  let x_bar := data.map fun d => d.xbar * planck (d.wavelength_nm * 1e-9) temperature
  let y_bar := data.map fun d => d.ybar * planck (d.wavelength_nm * 1e-9) temperature
  let z_bar := data.map fun d => d.zbar * planck (d.wavelength_nm * 1e-9) temperature
  match data[0]?, data[1]? with
  | some d0, some d1 =>
      let subint_size := d1.wavelength_nm - d0.wavelength_nm
      match simpson x_bar subint_size, simpson y_bar subint_size,
            simpson z_bar subint_size with
      | some x, some y, some z => some (x * 683, y * 683, z * 683)
      | _, _, _ => none
  | _, _ => none

/-- The fixed RGB-to-XYZ primaries matrix written in `xyz_to_rgb` in
src/temp_to_rgb.py before it is inverted. -/
noncomputable def rgb_to_xyz_matrix : Matrix (Fin 3) (Fin 3) ℝ :=
  !![2.768892, 1.751748, 1.130160;
     1.000000, 4.590700, 0.060100;
     0,        0.056508, 5.594292]

/-- From `xyz_to_rgb` in src/temp_to_rgb.py: multiply the inverse of the
fixed matrix with the XYZ vector.  Over the reals the numerically computed
`np.linalg.inv` is the exact matrix inverse. -/
noncomputable def xyz_to_rgb (xyz : Fin 3 → ℝ) : Fin 3 → ℝ :=
  rgb_to_xyz_matrix⁻¹.mulVec xyz

/-- The calibration coefficient computed in `main` in src/temp_to_rgb.py:
`calibration_coefficient = reference_luminance / ref_xyz[1]`. -/
noncomputable def calibration_coefficient (reference_luminance ref_y : ℝ) : ℝ :=
  reference_luminance / ref_y

/-- The per-sample calibration step `xyz *= calibration_coefficient` in
`main` in src/temp_to_rgb.py, applied componentwise. -/
noncomputable def apply_calibration (xyz : ℝ × ℝ × ℝ) (coefficient : ℝ) : ℝ × ℝ × ℝ :=
  (xyz.1 * coefficient, xyz.2.1 * coefficient, xyz.2.2 * coefficient)

/-- The sweep loop of `main` in src/temp_to_rgb.py:
`while cur_value <= max_value: ... cur_value += step_size`, recorded as
the list of visited values (in temperature mode each visited value is also
the temperature of that sample).  The loop itself has no bound, so the embedding
takes a fuel argument; any fuel at least the number of iterations gives
the list the Python loop produces. -/
noncomputable def sweep_values : ℝ → ℝ → ℝ → ℕ → List ℝ
  | _, _, _, 0 => []
  | cur_value, max_value, step_size, fuel + 1 =>
      if cur_value ≤ max_value then
        cur_value :: sweep_values (cur_value + step_size) max_value step_size fuel
      else []

/- Helper layer: a closed-form description of `simpson`. -/

/-- The number of Simpson panels the code uses, as a function of the input
length (for nonempty inputs this matches the `ℤ` computation in `simpson`). -/
def simpson_panels (n : ℕ) : ℕ :=
  (if (n - 1) % 2 ≠ 0 then n - 1 else n) / 2

lemma tdiv_toNat_ofNat (a b : ℕ) : ((a : ℤ).tdiv (b : ℤ)).toNat = a / b := rfl

lemma simpson_panels_eq (n : ℕ) (hn : 1 ≤ n) :
    ((if ((n : ℤ) - 1) % 2 ≠ 0 then (n : ℤ) - 1 else (n : ℤ)).tdiv 2).toNat =
      simpson_panels n := by
  obtain ⟨m, rfl⟩ : ∃ m, n = m + 1 := ⟨n - 1, by omega⟩
  have hcast : ((m + 1 : ℕ) : ℤ) - 1 = (m : ℤ) := by push_cast; ring
  have hcond : (((m + 1 : ℕ) : ℤ) - 1) % 2 ≠ 0 ↔ (m + 1 - 1) % 2 ≠ 0 := by
    rw [hcast]; omega
  unfold simpson_panels
  by_cases hc : (m + 1 - 1) % 2 ≠ 0
  · rw [if_pos (hcond.mpr hc), if_pos hc, hcast]
    exact tdiv_toNat_ofNat m 2
  · rw [if_neg (fun h => hc (hcond.mp h)), if_neg hc]
    exact tdiv_toNat_ofNat (m + 1) 2

lemma two_mul_simpson_panels_lt (n : ℕ) (hn : 1 ≤ n) : 2 * simpson_panels n < n := by
  unfold simpson_panels
  split <;> omega

/-- Closed form of `simpson` on a nonempty input. -/
lemma simpson_eq_some (values : List ℝ) (subint_size : ℝ) (hne : values ≠ []) :
    simpson values subint_size =
      some ((values.getD 0 0 + values.getD (2 * simpson_panels values.length) 0
          + 4 * ∑ i in Finset.Icc 1 (simpson_panels values.length), values.getD (2 * i - 1) 0
          + 2 * ∑ i in Finset.Ico 1 (simpson_panels values.length), values.getD (2 * i) 0)
        * (subint_size / 3)) := by
  have hlen : 1 ≤ values.length := List.length_pos.mpr hne
  have hidx : 2 * simpson_panels values.length < values.length :=
    two_mul_simpson_panels_lt _ hlen
  have h0 : values[0]? = some (values.getD 0 0) := by
    rw [List.getElem?_eq_getElem (by omega), List.getD_eq_getElem _ _ (by omega)]
  simp only [simpson]
  rw [simpson_panels_eq _ hlen, h0,
    List.getElem?_eq_getElem hidx, ← List.getD_eq_getElem _ 0 hidx]
  norm_num

/- Helper layer: sign facts about `planck`. -/

lemma planck_pos (wavelength temperature : ℝ)
    (hw : 0 < wavelength) (ht : 0 < temperature) : 0 < planck wavelength temperature := by
  unfold planck
  apply div_pos (by norm_num)
  apply mul_pos (pow_pos hw 5)
  rw [sub_pos, Real.one_lt_exp_iff]
  apply div_pos (by norm_num)
  positivity

lemma planck_nonneg (wavelength temperature : ℝ)
    (ht : 0 < temperature) : 0 ≤ planck wavelength temperature := by
  rcases lt_trichotomy wavelength 0 with hw | hw | hw
  · apply le_of_lt
    unfold planck
    apply div_pos (by norm_num)
    apply mul_pos_of_neg_of_neg (Odd.pow_neg (by decide) hw)
    rw [sub_neg, Real.exp_lt_one_iff]
    apply div_neg_of_pos_of_neg (by norm_num)
    have : wavelength * 1.380649e-23 < 0 := by nlinarith
    nlinarith
  · subst hw
    unfold planck
    norm_num
  · exact le_of_lt (planck_pos wavelength temperature hw ht)

lemma simpson_nil (subint_size : ℝ) : simpson [] subint_size = none := rfl

lemma simpson_one (v subint_size : ℝ) :
    simpson [v] subint_size = some ((v + v) * (subint_size / 3)) := by
  rw [simpson_eq_some _ _ (by simp)]
  norm_num [simpson_panels, List.getD]

lemma simpson_two (v w subint_size : ℝ) :
    simpson [v, w] subint_size = some ((v + v) * (subint_size / 3)) := by
  rw [simpson_eq_some _ _ (by simp)]
  norm_num [simpson_panels, List.getD]

lemma simpson_three (a b c subint_size : ℝ) :
    simpson [a, b, c] subint_size = some ((a + c + 4 * b) * (subint_size / 3)) := by
  rw [simpson_eq_some _ _ (by simp)]
  norm_num [simpson_panels, List.getD, Finset.Icc_self, Finset.sum_singleton,
    Finset.Ico_self, Finset.sum_empty]

/-- C2 counterexample: the claim says a length-1 or length-2 input does not
produce an ordinary numeric result, but `simpson` on `[1]` (and on `[1, 5]`)
with width 1 returns the plain number `2/3`. -/
theorem C2_counterexample :
    simpson [(1 : ℝ)] 1 = some (2 / 3) ∧ simpson [(1 : ℝ), 5] 1 = some (2 / 3) := by
  rw [simpson_one, simpson_two]
  norm_num

/-- C2 (amended): `simpson` fails only on the empty input; on inputs of
length 1 or 2 it returns the ordinary numeric value `2 * values[0] * h / 3`
(a degenerate result, not a failure). -/
theorem C2_small_inputs :
    (∀ subint_size : ℝ, simpson [] subint_size = none) ∧
    (∀ v subint_size : ℝ, simpson [v] subint_size = some ((v + v) * (subint_size / 3))) ∧
    (∀ v w subint_size : ℝ, simpson [v, w] subint_size = some ((v + v) * (subint_size / 3))) :=
  ⟨fun s => simpson_nil s, fun v s => simpson_one v s, fun v w s => simpson_two v w s⟩

lemma getD_replicate (n i : ℕ) (c : ℝ) (hi : i < n) :
    (List.replicate n c).getD i 0 = c := by
  rw [List.getD_eq_getElem?_getD, List.getElem?_replicate, if_pos hi]
  rfl

/-- C3: on a constant sequence of odd length `n ≥ 3` with value `c` and
subinterval width `h`, `simpson` returns exactly `c * (n - 1) * h`. -/
theorem C3_simpson_constant (c subint_size : ℝ) (n : ℕ)
    (hodd : Odd n) (h3 : 3 ≤ n) :
    simpson (List.replicate n c) subint_size = some (c * ((n : ℝ) - 1) * subint_size) := by
  obtain ⟨p, hp⟩ := hodd
  have hp1 : 1 ≤ p := by omega
  have hne : List.replicate n c ≠ [] := by
    intro e
    have := congrArg List.length e
    simp at this
    omega
  rw [simpson_eq_some _ _ hne, List.length_replicate]
  have hpan : simpson_panels n = p := by
    unfold simpson_panels
    split <;> omega
  rw [hpan]
  have e0 : (List.replicate n c).getD 0 0 = c := getD_replicate _ _ _ (by omega)
  have eN : (List.replicate n c).getD (2 * p) 0 = c := getD_replicate _ _ _ (by omega)
  have es1 : ∑ i in Finset.Icc 1 p, (List.replicate n c).getD (2 * i - 1) 0
      = ∑ _i in Finset.Icc 1 p, c := by
    refine Finset.sum_congr rfl fun i hi => ?_
    rw [Finset.mem_Icc] at hi
    exact getD_replicate _ _ _ (by omega)
  have es2 : ∑ i in Finset.Ico 1 p, (List.replicate n c).getD (2 * i) 0
      = ∑ _i in Finset.Ico 1 p, c := by
    refine Finset.sum_congr rfl fun i hi => ?_
    rw [Finset.mem_Ico] at hi
    exact getD_replicate _ _ _ (by omega)
  rw [e0, eN, es1, es2, Finset.sum_const, Finset.sum_const, Nat.card_Icc, Nat.card_Ico,
    nsmul_eq_mul, nsmul_eq_mul]
  have hcast1 : ((p + 1 - 1 : ℕ) : ℝ) = (p : ℝ) := by
    push_cast [Nat.add_sub_cancel]
    ring
  have hcast2 : ((p - 1 : ℕ) : ℝ) = (p : ℝ) - 1 := by
    push_cast [hp1]
    ring
  have hcast3 : ((n : ℕ) : ℝ) = 2 * (p : ℝ) + 1 := by
    rw [hp]
    push_cast
    ring
  rw [hcast1, hcast2, hcast3]
  congr 1
  ring

/-- Witness for C3: `simpson` on three copies of `2` with width `5`
returns `2 * (3 - 1) * 5`. -/
theorem C3_witness :
    simpson (List.replicate 3 (2 : ℝ)) 5 = some (2 * (((3 : ℕ) : ℝ) - 1) * 5) :=
  C3_simpson_constant 2 5 3 (by decide) (by norm_num)

/-- C5: Planck spectral radiance is strictly positive for every positive
wavelength and temperature (finiteness is automatic in the real-number
model of the float arithmetic). -/
theorem C5_planck_positive (wavelength temperature : ℝ)
    (hw : 0 < wavelength) (ht : 0 < temperature) :
    0 < planck wavelength temperature :=
  planck_pos wavelength temperature hw ht

/-- Witness for C5 at a visible-spectrum wavelength (500 nm) and 5000 K. -/
theorem C5_witness : ((0 : ℝ) < 5e-7 ∧ (0 : ℝ) < 5000) ∧ 0 < planck 5e-7 5000 :=
  ⟨⟨by norm_num, by norm_num⟩, C5_planck_positive 5e-7 5000 (by norm_num) (by norm_num)⟩

/-- C10: `voltage_to_temp 0` raises nothing in the model (it is a total
function on ℝ) and returns exactly `0`, because `0 ** 0.384 = 0`. -/
theorem C10_voltage_zero : voltage_to_temp 0 = 0 := by
  simp only [voltage_to_temp]
  rw [if_neg (by norm_num : ¬(0 : ℝ) < 0), Real.zero_rpow (by norm_num), mul_zero]

lemma sweep_values_stop (cur_value max_value step_size : ℝ) (fuel : ℕ)
    (h : max_value < cur_value) :
    sweep_values cur_value max_value step_size fuel = [] := by
  cases fuel with
  | zero => rfl
  | succ f =>
      simp only [sweep_values]
      rw [if_neg (not_le.mpr h)]

/-- C7: the temperature-mode sweep with min 1000, max 1200, step 100
visits exactly the values 1000, 1100, 1200, in increasing order (for any
fuel covering the three iterations of the Python while-loop). -/
theorem C7_sweep_samples (fuel : ℕ) (hfuel : 3 ≤ fuel) :
    sweep_values 1000 1200 100 fuel = [1000, 1100, 1200] := by
  obtain ⟨k, rfl⟩ := Nat.exists_eq_add_of_le hfuel
  rw [show 3 + k = k + 1 + 1 + 1 from by omega]
  simp only [sweep_values]
  norm_num
  rw [sweep_values_stop 1300 1200 100 k (by norm_num)]

/-- Witness for C7 with fuel exactly 3. -/
theorem C7_witness : sweep_values 1000 1200 100 3 = [1000, 1100, 1200] :=
  C7_sweep_samples 3 (by norm_num)

/-- C1: on a table of at least 3 rows and a positive temperature,
`get_xyz_from_temp` returns exactly `(683*Ix, 683*Iy, 683*Iz)` where each
`Ic` is the `simpson` integral of the per-row CMF value for that channel
times the Planck radiance at the row wavelength converted from nm to m,
with subinterval width `table[1].wavelength_nm - table[0].wavelength_nm`. -/
theorem C1_xyz_from_temp_structure (data : List CMFRow) (temperature ix iy iz : ℝ)
    (hlen : 3 ≤ data.length) (htemp : 0 < temperature)
    (hx : simpson (data.map fun d => d.xbar * planck (d.wavelength_nm * 1e-9) temperature)
      ((data.getD 1 ⟨0, 0, 0, 0⟩).wavelength_nm - (data.getD 0 ⟨0, 0, 0, 0⟩).wavelength_nm)
      = some ix)
    (hy : simpson (data.map fun d => d.ybar * planck (d.wavelength_nm * 1e-9) temperature)
      ((data.getD 1 ⟨0, 0, 0, 0⟩).wavelength_nm - (data.getD 0 ⟨0, 0, 0, 0⟩).wavelength_nm)
      = some iy)
    (hz : simpson (data.map fun d => d.zbar * planck (d.wavelength_nm * 1e-9) temperature)
      ((data.getD 1 ⟨0, 0, 0, 0⟩).wavelength_nm - (data.getD 0 ⟨0, 0, 0, 0⟩).wavelength_nm)
      = some iz) :
    get_xyz_from_temp temperature data = some (683 * ix, 683 * iy, 683 * iz) := by
  rcases data with _ | ⟨d0, data⟩
  · simp at hlen
  rcases data with _ | ⟨d1, rest⟩
  · simp at hlen
  simp only [List.getD_cons_succ, List.getD_cons_zero] at hx hy hz
  simp only [get_xyz_from_temp, List.getElem?_cons_zero, List.getElem?_cons_succ]
  rw [hx, hy, hz]
  simp only [Option.some.injEq, Prod.mk.injEq]
  exact ⟨mul_comm _ _, mul_comm _ _, mul_comm _ _⟩

/-- Witness for C1: the synthetic 3-row table with wavelengths 500, 600,
700 nm and identity-like CMF values, at 5000 K. -/
theorem C1_witness :
    get_xyz_from_temp 5000 [⟨500, 1, 0, 0⟩, ⟨600, 0, 1, 0⟩, ⟨700, 0, 0, 1⟩] =
      some (683 * ((1 * planck (500 * 1e-9) 5000 + 0 * planck (700 * 1e-9) 5000
              + 4 * (0 * planck (600 * 1e-9) 5000)) * ((600 - 500) / 3)),
            683 * ((0 * planck (500 * 1e-9) 5000 + 0 * planck (700 * 1e-9) 5000
              + 4 * (1 * planck (600 * 1e-9) 5000)) * ((600 - 500) / 3)),
            683 * ((0 * planck (500 * 1e-9) 5000 + 1 * planck (700 * 1e-9) 5000
              + 4 * (0 * planck (600 * 1e-9) 5000)) * ((600 - 500) / 3))) := by
  refine C1_xyz_from_temp_structure _ 5000 _ _ _ (by norm_num) (by norm_num) ?_ ?_ ?_
  · exact simpson_three _ _ _ _
  · exact simpson_three _ _ _ _
  · exact simpson_three _ _ _ _

lemma getD_dropLast (l : List ℝ) (i : ℕ) (hi : i < l.length - 1) :
    l.dropLast.getD i 0 = l.getD i 0 := by
  rw [List.getD_eq_getElem?_getD, List.getD_eq_getElem?_getD,
    List.dropLast_eq_take, List.getElem?_take, if_pos hi]

/-- C4: on an even-length input of at least 4 samples, `simpson` returns
exactly the same result as on the input with its last element removed
(the drop-last policy). -/
theorem C4_simpson_dropLast (values : List ℝ) (subint_size : ℝ)
    (heven : values.length % 2 = 0) (h4 : 4 ≤ values.length) :
    simpson values subint_size = simpson values.dropLast subint_size := by
  have hne : values ≠ [] := by
    intro e
    rw [e] at h4
    simp at h4
  have hlen2 : values.dropLast.length = values.length - 1 := List.length_dropLast _
  have hne2 : values.dropLast ≠ [] := by
    intro e
    rw [e] at hlen2
    simp at hlen2
    omega
  rw [simpson_eq_some _ _ hne, simpson_eq_some _ _ hne2, hlen2]
  have hpan : simpson_panels (values.length - 1) = simpson_panels values.length := by
    unfold simpson_panels
    split <;> split <;> omega
  rw [hpan]
  have hb : 2 * simpson_panels values.length < values.length - 1 := by
    unfold simpson_panels
    split <;> omega
  have e0 : values.dropLast.getD 0 0 = values.getD 0 0 := getD_dropLast _ _ (by omega)
  have eN : values.dropLast.getD (2 * simpson_panels values.length) 0
      = values.getD (2 * simpson_panels values.length) 0 := getD_dropLast _ _ hb
  have es1 : ∑ i in Finset.Icc 1 (simpson_panels values.length),
        values.dropLast.getD (2 * i - 1) 0
      = ∑ i in Finset.Icc 1 (simpson_panels values.length), values.getD (2 * i - 1) 0 := by
    refine Finset.sum_congr rfl fun i hi => ?_
    rw [Finset.mem_Icc] at hi
    exact getD_dropLast _ _ (by omega)
  have es2 : ∑ i in Finset.Ico 1 (simpson_panels values.length),
        values.dropLast.getD (2 * i) 0
      = ∑ i in Finset.Ico 1 (simpson_panels values.length), values.getD (2 * i) 0 := by
    refine Finset.sum_congr rfl fun i hi => ?_
    rw [Finset.mem_Ico] at hi
    exact getD_dropLast _ _ (by omega)
  rw [e0, eN, es1, es2]

/-- Witness for C4 on the even-length input `[1, 2, 3, 4]` with width 3. -/
theorem C4_witness :
    simpson [(1 : ℝ), 2, 3, 4] 3 = simpson [(1 : ℝ), 2, 3, 4].dropLast 3 :=
  C4_simpson_dropLast [(1 : ℝ), 2, 3, 4] 3 (by norm_num) (by norm_num)

/-- Evaluation of `get_xyz_from_temp` on a 3-row table. -/
lemma get_xyz_three (temperature : ℝ) (r1 r2 r3 : CMFRow) :
    get_xyz_from_temp temperature [r1, r2, r3] =
      some (((r1.xbar * planck (r1.wavelength_nm * 1e-9) temperature
            + r3.xbar * planck (r3.wavelength_nm * 1e-9) temperature
            + 4 * (r2.xbar * planck (r2.wavelength_nm * 1e-9) temperature))
          * ((r2.wavelength_nm - r1.wavelength_nm) / 3)) * 683,
        ((r1.ybar * planck (r1.wavelength_nm * 1e-9) temperature
            + r3.ybar * planck (r3.wavelength_nm * 1e-9) temperature
            + 4 * (r2.ybar * planck (r2.wavelength_nm * 1e-9) temperature))
          * ((r2.wavelength_nm - r1.wavelength_nm) / 3)) * 683,
        ((r1.zbar * planck (r1.wavelength_nm * 1e-9) temperature
            + r3.zbar * planck (r3.wavelength_nm * 1e-9) temperature
            + 4 * (r2.zbar * planck (r2.wavelength_nm * 1e-9) temperature))
          * ((r2.wavelength_nm - r1.wavelength_nm) / 3)) * 683) := by
  simp only [get_xyz_from_temp, List.map_cons, List.map_nil,
    List.getElem?_cons_zero, List.getElem?_cons_succ]
  rw [simpson_three, simpson_three, simpson_three]

/-- C6: if the supplied reference luminance equals the uncalibrated Y that
`get_xyz_from_temp` computes at the reference point, the calibrated Y at
that point (Y times `reference_luminance / Y`) is exactly the reference
luminance. -/
theorem C6_calibration_cancels (data : List CMFRow)
    (ref_temp reference_luminance x y z : ℝ)
    (href : get_xyz_from_temp ref_temp data = some (x, y, z))
    (heq : reference_luminance = y) (hpos : 0 < reference_luminance) :
    (apply_calibration (x, y, z) (calibration_coefficient reference_luminance y)).2.1
      = reference_luminance := by
  have hy : y ≠ 0 := by
    rw [← heq]
    exact ne_of_gt hpos
  simp only [apply_calibration, calibration_coefficient]
  rw [heq, div_self hy, mul_one]

/-- Witness for C6 at the 3-row table with wavelengths 1, 2, 3 nm, unit CMF
values, reference temperature 1 K, and reference luminance equal to the
uncalibrated Y there. -/
theorem C6_witness :
    (apply_calibration
        (((1 * planck (1 * 1e-9) 1 + 1 * planck (3 * 1e-9) 1
            + 4 * (1 * planck (2 * 1e-9) 1)) * ((2 - 1) / 3)) * 683,
         ((1 * planck (1 * 1e-9) 1 + 1 * planck (3 * 1e-9) 1
            + 4 * (1 * planck (2 * 1e-9) 1)) * ((2 - 1) / 3)) * 683,
         ((1 * planck (1 * 1e-9) 1 + 1 * planck (3 * 1e-9) 1
            + 4 * (1 * planck (2 * 1e-9) 1)) * ((2 - 1) / 3)) * 683)
        (calibration_coefficient
          (((1 * planck (1 * 1e-9) 1 + 1 * planck (3 * 1e-9) 1
              + 4 * (1 * planck (2 * 1e-9) 1)) * ((2 - 1) / 3)) * 683)
          (((1 * planck (1 * 1e-9) 1 + 1 * planck (3 * 1e-9) 1
              + 4 * (1 * planck (2 * 1e-9) 1)) * ((2 - 1) / 3)) * 683))).2.1
      = ((1 * planck (1 * 1e-9) 1 + 1 * planck (3 * 1e-9) 1
          + 4 * (1 * planck (2 * 1e-9) 1)) * ((2 - 1) / 3)) * 683 := by
  have h1 : 0 < planck (1 * 1e-9) 1 := planck_pos _ _ (by norm_num) (by norm_num)
  have h2 : 0 < planck (2 * 1e-9) 1 := planck_pos _ _ (by norm_num) (by norm_num)
  have h3 : 0 < planck (3 * 1e-9) 1 := planck_pos _ _ (by norm_num) (by norm_num)
  have hsum : 0 < 1 * planck (1 * 1e-9) 1 + 1 * planck (3 * 1e-9) 1
      + 4 * (1 * planck (2 * 1e-9) 1) := by nlinarith
  have hfac : (0 : ℝ) < ((2 : ℝ) - 1) / 3 := by norm_num
  have hpos : (0 : ℝ) < ((1 * planck (1 * 1e-9) 1 + 1 * planck (3 * 1e-9) 1
      + 4 * (1 * planck (2 * 1e-9) 1)) * ((2 - 1) / 3)) * 683 :=
    mul_pos (mul_pos hsum hfac) (by norm_num)
  exact C6_calibration_cancels [⟨1, 1, 1, 1⟩, ⟨2, 1, 1, 1⟩, ⟨3, 1, 1, 1⟩] 1 _ _ _ _
    (get_xyz_three 1 ⟨1, 1, 1, 1⟩ ⟨2, 1, 1, 1⟩ ⟨3, 1, 1, 1⟩) rfl hpos

lemma getD_nonneg (l : List ℝ) (i : ℕ) (h : ∀ v ∈ l, 0 ≤ v) : 0 ≤ l.getD i 0 := by
  rcases lt_or_le i l.length with hi | hi
  · rw [List.getD_eq_getElem _ _ hi]
    exact h _ (List.getElem_mem hi)
  · rw [List.getD_eq_getElem?_getD, List.getElem?_eq_none hi]
    exact le_refl 0

lemma simpson_nonneg (values : List ℝ) (subint_size : ℝ)
    (hvals : ∀ v ∈ values, 0 ≤ v) (hsub : 0 ≤ subint_size) (r : ℝ)
    (hr : simpson values subint_size = some r) : 0 ≤ r := by
  rcases eq_or_ne values [] with rfl | hne
  · rw [simpson_nil] at hr
    cases hr
  · rw [simpson_eq_some _ _ hne] at hr
    injection hr with hr
    rw [← hr]
    have hsum1 : (0 : ℝ) ≤ ∑ i in Finset.Icc 1 (simpson_panels values.length),
        values.getD (2 * i - 1) 0 :=
      Finset.sum_nonneg fun i _ => getD_nonneg _ _ hvals
    have hsum2 : (0 : ℝ) ≤ ∑ i in Finset.Ico 1 (simpson_panels values.length),
        values.getD (2 * i) 0 :=
      Finset.sum_nonneg fun i _ => getD_nonneg _ _ hvals
    have h0 := getD_nonneg values 0 hvals
    have hN := getD_nonneg values (2 * simpson_panels values.length) hvals
    have : (0 : ℝ) ≤ subint_size / 3 := by linarith
    nlinarith

/-- C8: on a table of at least 3 rows sorted by strictly increasing
wavelength with non-negative CMF entries and a positive temperature, any
XYZ triple `get_xyz_from_temp` returns has all three components
non-negative (finiteness is automatic in the real-number model). -/
theorem C8_xyz_nonneg (data : List CMFRow) (temperature x y z : ℝ)
    (hlen : 3 ≤ data.length)
    (hsorted : data.Pairwise fun a b => a.wavelength_nm < b.wavelength_nm)
    (hbars : ∀ r ∈ data, 0 ≤ r.xbar ∧ 0 ≤ r.ybar ∧ 0 ≤ r.zbar)
    (htemp : 0 < temperature)
    (hres : get_xyz_from_temp temperature data = some (x, y, z)) :
    0 ≤ x ∧ 0 ≤ y ∧ 0 ≤ z := by
  rcases data with _ | ⟨d0, data⟩
  · simp at hlen
  rcases data with _ | ⟨d1, rest⟩
  · simp at hlen
  have hw : d0.wavelength_nm < d1.wavelength_nm :=
    (List.pairwise_cons.mp hsorted).1 d1 (by simp)
  have hsub : 0 ≤ d1.wavelength_nm - d0.wavelength_nm := by linarith
  have hxe := simpson_eq_some
    ((d0 :: d1 :: rest).map fun d => d.xbar * planck (d.wavelength_nm * 1e-9) temperature)
    (d1.wavelength_nm - d0.wavelength_nm) (by simp)
  have hye := simpson_eq_some
    ((d0 :: d1 :: rest).map fun d => d.ybar * planck (d.wavelength_nm * 1e-9) temperature)
    (d1.wavelength_nm - d0.wavelength_nm) (by simp)
  have hze := simpson_eq_some
    ((d0 :: d1 :: rest).map fun d => d.zbar * planck (d.wavelength_nm * 1e-9) temperature)
    (d1.wavelength_nm - d0.wavelength_nm) (by simp)
  have hxv : ∀ v ∈ (d0 :: d1 :: rest).map
      fun d => d.xbar * planck (d.wavelength_nm * 1e-9) temperature, 0 ≤ v := by
    intro v hv
    rw [List.mem_map] at hv
    obtain ⟨d, hd, rfl⟩ := hv
    exact mul_nonneg (hbars d hd).1 (planck_nonneg _ _ htemp)
  have hyv : ∀ v ∈ (d0 :: d1 :: rest).map
      fun d => d.ybar * planck (d.wavelength_nm * 1e-9) temperature, 0 ≤ v := by
    intro v hv
    rw [List.mem_map] at hv
    obtain ⟨d, hd, rfl⟩ := hv
    exact mul_nonneg (hbars d hd).2.1 (planck_nonneg _ _ htemp)
  have hzv : ∀ v ∈ (d0 :: d1 :: rest).map
      fun d => d.zbar * planck (d.wavelength_nm * 1e-9) temperature, 0 ≤ v := by
    intro v hv
    rw [List.mem_map] at hv
    obtain ⟨d, hd, rfl⟩ := hv
    exact mul_nonneg (hbars d hd).2.2 (planck_nonneg _ _ htemp)
  have hX := simpson_nonneg _ _ hxv hsub _ hxe
  have hY := simpson_nonneg _ _ hyv hsub _ hye
  have hZ := simpson_nonneg _ _ hzv hsub _ hze
  simp only [get_xyz_from_temp, List.getElem?_cons_zero, List.getElem?_cons_succ] at hres
  rw [hxe, hye, hze] at hres
  simp only [Option.some.injEq, Prod.mk.injEq] at hres
  obtain ⟨rfl, rfl, rfl⟩ := hres
  refine ⟨?_, ?_, ?_⟩ <;> exact mul_nonneg (by assumption) (by norm_num)

/-- Witness for C8: the sorted non-negative 3-row table with wavelengths
500, 600, 700 nm at 5000 K has non-negative X, Y, Z. -/
theorem C8_witness :
    (0 : ℝ) ≤ ((1 * planck (500 * 1e-9) 5000 + 0 * planck (700 * 1e-9) 5000
        + 4 * (0 * planck (600 * 1e-9) 5000)) * ((600 - 500) / 3)) * 683 ∧
    (0 : ℝ) ≤ ((0 * planck (500 * 1e-9) 5000 + 0 * planck (700 * 1e-9) 5000
        + 4 * (1 * planck (600 * 1e-9) 5000)) * ((600 - 500) / 3)) * 683 ∧
    (0 : ℝ) ≤ ((0 * planck (500 * 1e-9) 5000 + 1 * planck (700 * 1e-9) 5000
        + 4 * (0 * planck (600 * 1e-9) 5000)) * ((600 - 500) / 3)) * 683 := by
  refine C8_xyz_nonneg [⟨500, 1, 0, 0⟩, ⟨600, 0, 1, 0⟩, ⟨700, 0, 0, 1⟩] 5000 _ _ _
    (by simp) ?_ ?_ (by norm_num)
    (get_xyz_three 5000 ⟨500, 1, 0, 0⟩ ⟨600, 0, 1, 0⟩ ⟨700, 0, 0, 1⟩)
  · refine List.Pairwise.cons ?_ (List.Pairwise.cons ?_ (List.pairwise_singleton _ _))
    · intro b hb
      simp only [List.mem_cons, List.not_mem_nil, or_false] at hb
      rcases hb with rfl | rfl <;> norm_num
    · intro b hb
      simp only [List.mem_cons, List.not_mem_nil, or_false] at hb
      rcases hb with rfl
      norm_num
  · intro r hr
    simp only [List.mem_cons, List.not_mem_nil, or_false] at hr
    rcases hr with rfl | rfl | rfl <;> norm_num

lemma rgb_to_xyz_matrix_det_isUnit : IsUnit rgb_to_xyz_matrix.det := by
  rw [isUnit_iff_ne_zero, Matrix.det_fin_three]
  norm_num [rgb_to_xyz_matrix, Matrix.cons_val_zero, Matrix.cons_val_one,
    Matrix.head_cons, Matrix.head_fin_const]

/-- C9: applying `xyz_to_rgb` to the fixed matrix times an RGB vector
recovers that vector exactly over exact arithmetic, since `xyz_to_rgb`
multiplies by the inverse of the same fixed matrix. -/
theorem C9_xyz_rgb_roundtrip (rgb_vector : Fin 3 → ℝ) :
    xyz_to_rgb (rgb_to_xyz_matrix.mulVec rgb_vector) = rgb_vector := by
  unfold xyz_to_rgb
  rw [Matrix.mulVec_mulVec, Matrix.nonsing_inv_mul _ rgb_to_xyz_matrix_det_isUnit,
    Matrix.one_mulVec]
